import Mathlib

/-!
Shallow embedding of `src/exercises/exercise-14/database.ts` (the superset
variant; `exercise-13` is the same engine without sort/projection).
The host language values occurring in records and filter operands are
modelled by `Value` (numbers as `Int`; this development never needs
non-integral numbers). Records are association lists of fields, with
JS semantics: reading an absent field yields `undefined`.
-/

namespace DB

/-- A host-language value as it can occur in a record field or a filter
operand: number, string, boolean, null or undefined. -/
inductive Value : Type
  | num (n : Int)
  | str (s : String)
  | bool (b : Bool)
  | null
  | undef
deriving DecidableEq, Repr

/-- Host-language truthiness: numeric zero, the empty string, `false`,
`null` and `undefined` are falsy; everything else is truthy. -/
def truthy : Value → Bool
  | .num n => n != 0
  | .str s => !s.isEmpty
  | .bool b => b
  | .null => false
  | .undef => false

/-- Strict equality (`===`) between the modelled values: same shape and
same payload; `null` and `undefined` are distinct. -/
def jsStrictEq (a b : Value) : Bool := a = b

/-- Modelled host primitive: string-to-number conversion as used by the
abstract relational comparison (trimmed empty string is 0, an optionally
signed decimal integer is its value, anything else is NaN = `none`).
Exotic numeric literal forms are out of the model. -/
def strToNumber (s : String) : Option Int :=
  let t := s.trim
  if t.isEmpty then some 0 else t.toInt?

/-- The `ToNumber` step of the abstract relational comparison; `none` is NaN. -/
def toNumber : Value → Option Int
  | .num n => some n
  | .str s => strToNumber s
  | .bool b => some (if b then 1 else 0)
  | .null => some 0
  | .undef => none

/-- The host `<` comparison: two strings compare lexicographically,
otherwise both sides convert to numbers and a NaN makes it false. -/
def jsLt (a b : Value) : Bool :=
  match a, b with
  | .str x, .str y => decide (x < y)
  | _, _ =>
    match toNumber a, toNumber b with
    | some m, some n => decide (m < n)
    | _, _ => false

/-- The host `>` comparison: `a > b` behaves as `b < a`. -/
def jsGt (a b : Value) : Bool := jsLt b a

/-- A record: association list from field names to values. -/
abbrev Record : Type := List (String × Value)

/-- Reading `entry[field]`: the value at the first matching key, or
`undefined` when the field is absent. -/
def getField : Record → String → Value
  | [], _ => .undef
  | (k, v) :: rest, f => if k = f then v else getField rest f

/-- Whether the record has the field as an own property. -/
def hasField : Record → String → Bool
  | [], _ => false
  | (k, _) :: rest, f => decide (k = f) || hasField rest f

/-- Replace the value at every occurrence of the key (helper for
`setField`). -/
def setAll : Record → String → Value → Record
  | [], _, _ => []
  | (k, w) :: rest, f, v =>
    (k, if k = f then v else w) :: setAll rest f v

/-- Object spread update `\x7b...r, [f]: v\x7d`: an existing field keeps its
position with the new value, a new field is appended. -/
def setField (r : Record) (f : String) (v : Value) : Record :=
  if hasField r f then setAll r f v else r ++ [(f, v)]

/-- The operator set attached to one field of a ConditionalFilter.
An absent operator is `undefined` (for `$in`, `none`); an `$in` operand,
being an array, is always truthy in the host language. -/
structure Condition where
  eq : Value
  gt : Value
  lt : Value
  inOp : Option (List Value)
deriving DecidableEq, Repr

/-- A ConditionalFilter: association list from field names to operator
sets, iterated in insertion order like `for..in`. -/
abbrev CondFilter : Type := List (String × Condition)

/-- One iteration of the `for..in` body of `filterByConditionOrArray`:
each operator whose operand is truthy is ANDed into the running result
(`$eq`, then `$lt`, then `$gt`, then `$in`, as in the source; an `$in`
array is always truthy, so a present `$in` is always applied;
`includes` membership uses strict equality on these values). -/
def applyCondition (entry : Record) (field : String) (c : Condition)
    (result : Bool) : Bool :=
  let v := getField entry field
  let result := if truthy c.eq then result && jsStrictEq v c.eq else result
  let result := if truthy c.lt then result && jsLt v c.lt else result
  let result := if truthy c.gt then result && jsGt v c.gt else result
  match c.inOp with
  | some l => result && l.any (fun x => jsStrictEq v x)
  | none => result

/-- Source `filterByConditionOrArray`: fold the per-field operator checks over
the filter's fields, starting from `true` (implicit AND, no
short-circuit). -/
def filterByConditionOrArray (entry : Record) (filter : CondFilter) : Bool :=
  filter.foldl (fun result p => applyCondition entry p.1 p.2 result) true

/-- A filter object as the engine sees it: the optional reserved keys
`$and`, `$or`, `$text` plus the plain field-to-condition entries.
An optional key present with value `undefined` is not distinguished
from an absent key (the static filter type rules that case out). -/
structure Filter where
  andSeq : Option (List CondFilter)
  orSeq : Option (List CondFilter)
  textQ : Option String
  cond : CondFilter

/-- Source `isTextFilter`: the filter has the `$text` key. -/
def isTextFilter (f : Filter) : Bool := f.textQ.isSome

/-- Source `isMultiFilter`: the filter has the `$and` or the `$or` key. -/
def isMultiFilter (f : Filter) : Bool := f.andSeq.isSome || f.orSeq.isSome

/-- Source `filterByMultiFilter`: with `$and` present, AND-fold the sub-filters
from `true`; otherwise OR-fold the `$or` sub-filters from `false`.
(When neither key is present the source would dereference `undefined`;
`find` only reaches this function when `isMultiFilter` holds, so that
unreachable point is totalized with the empty sequence.) -/
def filterByMultiFilter (entry : Record) (f : Filter) : Bool :=
  match f.andSeq with
  | some conds =>
    conds.foldl (fun carry c => carry && filterByConditionOrArray entry c) true
  | none =>
    (f.orSeq.getD []).foldl
      (fun carry c => carry || filterByConditionOrArray entry c) false

/-- The whitespace class of the splitting pattern (space, tab and the
common control whitespace; the full Unicode class is out of the model). -/
def isWs (c : Char) : Bool :=
  c = ' ' || c = '\t' || c = '\n' || c = '\r' || c = '\x0b' || c = '\x0c'

/-- Splitting a character list at every single whitespace character,
keeping empty pieces (so consecutive whitespace yields empty words and
the empty input yields one empty word), as the host split does. -/
def splitWsAux (cs : List Char) : List (List Char) :=
  cs.foldr
    (fun c acc =>
      if isWs c then [] :: acc
      else
        match acc with
        | h :: t => (c :: h) :: t
        | [] => [[c]])
    [[]]

/-- The split of the query string at every single whitespace character. -/
def splitWs (s : String) : List String :=
  (splitWsAux s.data).map (fun l => ⟨l⟩)

/-- A word character of the boundary assertion: ASCII letter, digit or
underscore. -/
def isWordChar (c : Char) : Bool := c.isAlphanum || c = '_'

/-- Whether position `i` of the string sits on a word character
(out-of-range positions do not). -/
def wordCharAt (s : List Char) (i : Nat) : Bool :=
  match s.drop i with
  | c :: _ => isWordChar c
  | [] => false

/-- The boundary assertion at position `i`: a word character on exactly
one side of the position. -/
def isBoundary (s : List Char) (i : Nat) : Bool :=
  (if i = 0 then false else wordCharAt s (i - 1)) != wordCharAt s i

/-- Case-insensitive literal prefix test (the `i` flag folds case;
ASCII simple folding models it). -/
def ciPrefix : List Char → List Char → Bool
  | [], _ => true
  | _ :: _, [] => false
  | c :: w, d :: s => (c.toLower == d.toLower) && ciPrefix w s

/-- Modelled host primitive: the test of the dynamically built pattern,
boundary + word + boundary with the case-insensitive flag, against `s`.
The word is spliced into the pattern verbatim; this model treats it as a
literal, which is the source's intent (words with pattern
metacharacters are out of the model). -/
def testWordBoundary (w : String) (s : String) : Bool :=
  let sc := s.data
  (List.range (sc.length + 1)).any fun i =>
    isBoundary sc i && ciPrefix w.data (sc.drop i) &&
      isBoundary sc (i + w.data.length)

/-- Source `filterByText`: split the query into words on whitespace; for every
word and every configured full-text-search field whose value is a
string, OR the whole-word test into the running result (seed false). -/
def filterByText (ftsFields : List String) (entry : Record)
    (text : String) : Bool :=
  (splitWs text).foldl
    (fun result word =>
      ftsFields.foldl
        (fun result field =>
          match getField entry field with
          | .str s => result || testWordBoundary word s
          | _ => result)
        result)
    false

/-- The comparator `sort(a, b, sortOptions)`: walk the sort fields in
order; at the first field where one value is strictly greater the
configured direction (or its negation) is returned; otherwise 0. -/
def sort (a b : Record) : List (String × Int) → Int
  | [] => 0
  | (field, direction) :: rest =>
    if jsGt (getField a field) (getField b field) then direction
    else if jsLt (getField a field) (getField b field) then -direction
    else sort a b rest

/-- Source `project`: starting from the empty record, copy each projected field
of the entry into the new record by spread update. -/
def project (entry : Record) (projectionFields : List String) : Record :=
  projectionFields.foldl
    (fun newEntry field => setField newEntry field (getField entry field)) []

/-- Stable insertion (helper for the sort model). -/
def insertCmp (cmp : α → α → Int) (x : α) : List α → List α
  | [] => [x]
  | y :: ys => if cmp x y < 0 then x :: y :: ys else y :: insertCmp cmp x ys

/-- Modelled host primitive: the in-place comparator sort of the host
array type, modelled as a stable sort. No claim depends on its output
shape. -/
def jsSort (cmp : α → α → Int) (l : List α) : List α :=
  l.foldl (fun acc x => insertCmp cmp x acc) []

/-- The optional `find` options: `sort` and `projection` specs, each a
key list in mapping order (`sort` paired with its direction; only the
key lists are read by the source). -/
structure FindOptions where
  sortSpec : Option (List (String × Int))
  projection : Option (List String)

/-- The filter dispatch inside `find`: MultiFilter first, then
TextFilter, else ConditionalFilter (the text branch is only reached
with `$text` present, so its payload default is unreachable). -/
def evalFilter (ftsFields : List String) (query : Filter)
    (entry : Record) : Bool :=
  if isMultiFilter query then filterByMultiFilter entry query
  else if isTextFilter query then
    filterByText ftsFields entry (query.textQ.getD "")
  else filterByConditionOrArray entry query.cond

/-- The visibility test: the row's first character is the existence marker. -/
def startsE (row : String) : Bool :=
  match row.data with
  | c :: _ => c == 'E'
  | [] => false

/-- The decode loop of `find`: keep the rows whose first character is
the existence marker, parse the remainder of each, abort on the first
parse failure. `parse` models the host structured-data parser, which
throws (`none`) on malformed input. -/
def decodeRows (parse : String → Option Record) :
    List String → Option (List Record)
  | [] => some []
  | row :: rest =>
    if startsE row then do
      let entry ← parse (row.drop 1)
      let entries ← decodeRows parse rest
      pure (entry :: entries)
    else decodeRows parse rest

/-- The body of `find` after the raw content is split into rows:
decode the visible rows, filter by the query, then apply the optional
sort and projection. -/
def findRows (ftsFields : List String) (parse : String → Option Record)
    (rows : List String) (query : Filter) (options : Option FindOptions) :
    Option (List Record) := do
  let entries ← decodeRows parse rows
  let entries := entries.filter (evalFilter ftsFields query)
  match options with
  | none => pure entries
  | some o =>
    let entries :=
      match o.sortSpec with
      | some spec => jsSort (fun a b => sort a b spec) entries
      | none => entries
    match o.projection with
    | some proj => pure (entries.map (fun e => project e proj))
    | none => pure entries

/-- Source `find` on the raw log content: split on the line feed, then run the
pipeline. The file read itself is outside the model; `none` is the
rejected promise of a decode failure. -/
def find (ftsFields : List String) (parse : String → Option Record)
    (rawData : String) (query : Filter) (options : Option FindOptions) :
    Option (List Record) :=
  findRows ftsFields parse (rawData.splitOn "\n") query options

/-! ### Helper definitions for the statements and witnesses -/

/-- Whether the value of `field` in the entry is a string in which `word`
occurs as a whole word (the per-pair test of `filterByText`). -/
def matchesStrField (entry : Record) (word field : String) : Bool :=
  match getField entry field with
  | .str s => testWordBoundary word s
  | _ => false

/-- A concrete stand-in parser used to instantiate parse-generic
theorems at a concrete input. -/
def parse0 : String → Option Record :=
  fun s => if s = "ok" then some [] else none

/-! ### Helper lemmas -/

theorem truthy_undef : truthy Value.undef = false := rfl

theorem applyCondition_false (entry : Record) (field : String)
    (c : Condition) : applyCondition entry field c false = false := by
  unfold applyCondition
  cases c.inOp <;> simp

theorem applyCondition_inOp_nil (entry : Record) (field : String)
    (c : Condition) (r : Bool) (h : c.inOp = some []) :
    applyCondition entry field c r = false := by
  unfold applyCondition
  rw [h]
  simp

theorem foldl_applyCondition_false (entry : Record) (l : CondFilter) :
    l.foldl (fun result p => applyCondition entry p.1 p.2 result) false
      = false := by
  induction l with
  | nil => rfl
  | cons p rest ih =>
    simp only [List.foldl_cons, applyCondition_false]
    exact ih

/-! ### Claim C1 -/

/-- C1: a single-`$eq` ConditionalFilter matches exactly when the record
value strictly equals the operand, except that a falsy operand makes the
clause a no-op and the filter match everything; the same truthy gate
sits in front of `$gt` and `$lt`, and in front of `$in` (whose operand,
an array, is always truthy when present, so a present `$in` is always
applied). -/
theorem eq_clause_truthy_gating (R : Record) (f : String) (v : Value)
    (l : List Value) :
    (truthy v = true →
      filterByConditionOrArray R [(f, ⟨v, .undef, .undef, none⟩)]
        = jsStrictEq (getField R f) v)
    ∧ (truthy v = false →
      filterByConditionOrArray R [(f, ⟨v, .undef, .undef, none⟩)] = true)
    ∧ (truthy v = true →
      filterByConditionOrArray R [(f, ⟨.undef, v, .undef, none⟩)]
        = jsGt (getField R f) v)
    ∧ (truthy v = false →
      filterByConditionOrArray R [(f, ⟨.undef, v, .undef, none⟩)] = true)
    ∧ (truthy v = true →
      filterByConditionOrArray R [(f, ⟨.undef, .undef, v, none⟩)]
        = jsLt (getField R f) v)
    ∧ (truthy v = false →
      filterByConditionOrArray R [(f, ⟨.undef, .undef, v, none⟩)] = true)
    ∧ filterByConditionOrArray R [(f, ⟨.undef, .undef, .undef, some l⟩)]
        = l.any (fun x => jsStrictEq (getField R f) x)
    ∧ filterByConditionOrArray R [(f, ⟨.undef, .undef, .undef, none⟩)]
        = true := by
  refine ⟨?_, ?_, ?_, ?_, ?_, ?_, ?_, ?_⟩ <;>
    first
      | (intro h
         simp [filterByConditionOrArray, applyCondition, h, truthy_undef])
      | simp [filterByConditionOrArray, applyCondition, truthy_undef]

/-- Witness for C1 at a concrete record and operands. -/
theorem eq_clause_truthy_gating_witness :
    truthy (Value.num 3) = true
    ∧ filterByConditionOrArray [("x", Value.num 3)]
        [("x", ⟨Value.num 3, .undef, .undef, none⟩)] = true
    ∧ truthy (Value.num 0) = false
    ∧ filterByConditionOrArray [("x", Value.num 3)]
        [("x", ⟨Value.num 0, .undef, .undef, none⟩)] = true := by
  have h := eq_clause_truthy_gating [("x", Value.num 3)] "x" (Value.num 3) []
  have h0 := eq_clause_truthy_gating [("x", Value.num 3)] "x" (Value.num 0) []
  refine ⟨by decide, ?_, by decide, h0.2.1 (by decide)⟩
  rw [h.1 (by decide)]
  decide

/-! ### Claim C2 -/

/-- C2: `find` dispatches by detection order MultiFilter (`$and`/`$or`
present), then TextFilter (`$text` present), else ConditionalFilter; in
particular a filter carrying both `$text` and `$and` is evaluated as a
MultiFilter. -/
theorem find_dispatch_order (fts : List String) (q : Filter) (R : Record) :
    (isMultiFilter q = true →
      evalFilter fts q R = filterByMultiFilter R q)
    ∧ (isMultiFilter q = false → ∀ t, q.textQ = some t →
      evalFilter fts q R = filterByText fts R t)
    ∧ (isMultiFilter q = false → isTextFilter q = false →
      evalFilter fts q R = filterByConditionOrArray R q.cond)
    ∧ (∀ t l, q.textQ = some t → q.andSeq = some l →
      evalFilter fts q R = filterByMultiFilter R q) := by
  refine ⟨?_, ?_, ?_, ?_⟩
  · intro h
    simp [evalFilter, h]
  · intro h t ht
    simp [evalFilter, isTextFilter, h, ht]
  · intro h ht
    simp [evalFilter, h, ht]
  · intro t l ht hl
    have h : isMultiFilter q = true := by simp [isMultiFilter, hl]
    simp [evalFilter, h]

/-- Witness for C2 at a concrete filter carrying both `$text` and
`$and`. -/
theorem find_dispatch_order_witness :
    evalFilter [] ⟨some [], none, some "cat", []⟩ []
      = filterByMultiFilter [] ⟨some [], none, some "cat", []⟩ := by
  exact (find_dispatch_order [] ⟨some [], none, some "cat", []⟩ []).2.2.2
    "cat" [] rfl rfl

/-! ### Claim C6 -/

/-- C6: a MultiFilter with an empty `$and` sequence matches every record
(AND-fold seed `true`); one with an empty `$or` sequence matches none
(OR-fold seed `false`). -/
theorem multi_filter_empty_seeds (R : Record) (t : Option String)
    (c : CondFilter) :
    filterByMultiFilter R ⟨some [], none, t, c⟩ = true
    ∧ filterByMultiFilter R ⟨none, some [], t, c⟩ = false
    ∧ evalFilter [] ⟨some [], none, none, []⟩ R = true
    ∧ evalFilter [] ⟨none, some [], none, []⟩ R = false := by
  refine ⟨rfl, rfl, rfl, rfl⟩

/-! ### Claim C9 -/

/-- C9: a ConditionalFilter containing an `$in` clause with the empty
sequence as operand matches no record: the empty array is truthy, so
the clause is applied, and membership in the empty sequence is false,
which the AND-fold can never recover from. -/
theorem in_empty_never_matches (R : Record) (filt : CondFilter)
    (f : String) (c : Condition) (hmem : (f, c) ∈ filt)
    (hin : c.inOp = some []) :
    filterByConditionOrArray R filt = false := by
  unfold filterByConditionOrArray
  induction filt with
  | nil => cases hmem
  | cons p rest ih =>
    rcases List.mem_cons.mp hmem with h | h
    · subst h
      simp only [List.foldl_cons, applyCondition_inOp_nil R f c true hin]
      exact foldl_applyCondition_false R rest
    · simp only [List.foldl_cons]
      cases happ : applyCondition R p.1 p.2 true
      · exact foldl_applyCondition_false R rest
      · exact ih h

/-- Witness for C9 at a concrete record and filter. -/
theorem in_empty_never_matches_witness :
    filterByConditionOrArray [("x", Value.num 1)]
      [("x", ⟨Value.undef, Value.undef, Value.undef, some []⟩)] = false := by
  exact in_empty_never_matches [("x", Value.num 1)] _ "x"
    ⟨Value.undef, Value.undef, Value.undef, some []⟩ (List.mem_singleton.mpr rfl)
    rfl

/-! ### Claim C10 -/

/-- C10: a filter carrying both `$and` and `$or` sequences is evaluated
from the `$and` sequence alone; the `$or` sequence (and any other key)
has no effect on the outcome. -/
theorem and_wins_over_or (fts : List String) (R : Record)
    (l1 l2 : List CondFilter) (t : Option String) (c : CondFilter) :
    evalFilter fts ⟨some l1, some l2, t, c⟩ R
      = evalFilter fts ⟨some l1, none, none, []⟩ R
    ∧ evalFilter fts ⟨some l1, some l2, t, c⟩ R
      = l1.foldl (fun carry cf => carry && filterByConditionOrArray R cf)
          true := by
  refine ⟨rfl, rfl⟩

/-! ### Claim C5 -/

theorem matchesStrField_iff (entry : Record) (word field : String) :
    matchesStrField entry word field = true ↔
      ∃ s, getField entry field = Value.str s
        ∧ testWordBoundary word s = true := by
  unfold matchesStrField
  cases hg : getField entry field <;> simp [hg]

theorem filterByText_inner_foldl (entry : Record) (word : String)
    (fts : List String) (r : Bool) :
    fts.foldl
        (fun result field =>
          match getField entry field with
          | Value.str s => result || testWordBoundary word s
          | _ => result)
        r
      = (r || fts.any (fun field => matchesStrField entry word field)) := by
  induction fts generalizing r with
  | nil => simp
  | cons f rest ih =>
    simp only [List.foldl_cons, List.any_cons]
    rw [ih]
    cases hg : getField entry f <;>
      simp [matchesStrField, hg, Bool.or_assoc]

theorem filterByText_outer_foldl (entry : Record) (fts : List String)
    (words : List String) (r : Bool) :
    words.foldl
        (fun result word =>
          fts.foldl
            (fun result field =>
              match getField entry field with
              | Value.str s => result || testWordBoundary word s
              | _ => result)
            result)
        r
      = (r ||
          words.any (fun w => fts.any (fun f => matchesStrField entry w f))) := by
  induction words generalizing r with
  | nil => simp
  | cons w rest ih =>
    simp only [List.foldl_cons, List.any_cons]
    rw [ih, filterByText_inner_foldl]
    simp [Bool.or_assoc]

theorem filterByText_eq_any (fts : List String) (entry : Record)
    (t : String) :
    filterByText fts entry t
      = (splitWs t).any
          (fun w => fts.any (fun f => matchesStrField entry w f)) := by
  unfold filterByText
  rw [filterByText_outer_foldl]
  simp

/-- C5: `filterByText` matches exactly when some whitespace-split word
of the query occurs, case-insensitively and anchored by word boundaries
on both sides, as a whole word in the string value of some configured
full-text-search field; non-string values are never searched, and a
substring inside a longer token does not count (witnessed by the
bundled concrete boundary facts). -/
theorem filterByText_characterization (fts : List String) (R : Record)
    (t : String) :
    (filterByText fts R t = true ↔
      ∃ w ∈ splitWs t, ∃ f ∈ fts, ∃ s,
        getField R f = Value.str s ∧ testWordBoundary w s = true)
    ∧ testWordBoundary "cat" "concatenate" = false
    ∧ testWordBoundary "cat" "The Cat sat" = true := by
  refine ⟨?_, by decide, by decide⟩
  rw [filterByText_eq_any]
  simp [List.any_eq_true, matchesStrField_iff]

/-- Witness for C5 at a concrete record, field list and query. -/
theorem filterByText_characterization_witness :
    filterByText ["name"] [("name", Value.str "The Cat sat")] "cat"
      = true := by
  exact (filterByText_characterization ["name"]
      [("name", Value.str "The Cat sat")] "cat").1.mpr
    ⟨"cat", by decide, "name", by decide, "The Cat sat", by decide, by decide⟩

/-! ### Claim C7 -/

/-- C7 counterexample: under the sort spec `[("x", 1)]`, the records
`\x7b\x7d` and `\x7bx: 1\x7d` differ at the listed field `"x"` (`undefined`
versus `1`) and the left value is not greater, so a comparator that
returned a signal at every differing field would have to return the
negated direction `-1`; the comparator instead skips the field (neither
`>` nor `<` holds for `undefined`) and returns `0`. -/
theorem sort_first_diff_cex :
    getField [] "x" ≠ getField [("x", Value.num 1)] "x"
    ∧ jsGt (getField [] "x") (getField [("x", Value.num 1)] "x") = false
    ∧ sort [] [("x", Value.num 1)] [("x", 1)] = 0
    ∧ sort [] [("x", Value.num 1)] [("x", 1)] ≠ -1 := by
  refine ⟨by decide, by decide, by decide, by decide⟩

/-- C7 amended: the comparator walks the sort spec's fields in mapping
order; at the first field whose two values are strictly ordered it
returns the configured direction when the left value is greater and the
negated direction when it is smaller; a field whose values are neither
greater nor smaller (equal, or incomparable like `undefined`) is
skipped; when no listed field is strictly ordered the result is `0`;
and fields outside the spec never influence the result. -/
theorem sort_characterization (a b : Record) (f : String) (d : Int)
    (rest : List (String × Int)) :
    sort a b [] = 0
    ∧ (jsGt (getField a f) (getField b f) = true →
        sort a b ((f, d) :: rest) = d)
    ∧ (jsGt (getField a f) (getField b f) = false →
        jsLt (getField a f) (getField b f) = true →
        sort a b ((f, d) :: rest) = -d)
    ∧ (jsGt (getField a f) (getField b f) = false →
        jsLt (getField a f) (getField b f) = false →
        sort a b ((f, d) :: rest) = sort a b rest)
    ∧ (∀ (a' b' : Record) (spec : List (String × Int)),
        (∀ p ∈ spec, getField a' p.1 = getField a p.1
          ∧ getField b' p.1 = getField b p.1) →
        sort a' b' spec = sort a b spec) := by
  refine ⟨rfl, ?_, ?_, ?_, ?_⟩
  · intro hgt
    simp [sort, hgt]
  · intro hgt hlt
    simp [sort, hgt, hlt]
  · intro hgt hlt
    simp [sort, hgt, hlt]
  · intro a' b' spec hfields
    induction spec with
    | nil => rfl
    | cons p restSpec ih =>
      have hp := hfields p (List.mem_cons_self p restSpec)
      have hrest : ∀ q ∈ restSpec, getField a' q.1 = getField a q.1
          ∧ getField b' q.1 = getField b q.1 :=
        fun q hq => hfields q (List.mem_cons_of_mem p hq)
      cases p with
      | mk pf pd =>
        simp only [sort, hp.1, hp.2, ih hrest]

/-- Witness for C7's amended characterization at concrete records. -/
theorem sort_characterization_witness :
    jsGt (getField [("age", Value.num 30)] "age")
        (getField [("age", Value.num 25)] "age") = true
    ∧ sort [("age", Value.num 30)] [("age", Value.num 25)] [("age", 1)]
        = 1 := by
  refine ⟨by decide, ?_⟩
  exact (sort_characterization [("age", Value.num 30)]
      [("age", Value.num 25)] "age" 1 []).2.1 (by decide)

/-! ### Claim C8 -/

theorem getField_append (r r2 : Record) (f : String) :
    getField (r ++ r2) f
      = (if hasField r f then getField r f else getField r2 f) := by
  induction r with
  | nil => simp [getField, hasField]
  | cons p rest ih =>
    cases p with
    | mk k v =>
      by_cases hk : k = f <;> simp [getField, hasField, hk, ih]

theorem hasField_setAll (r : Record) (f : String) (v : Value)
    (g : String) : hasField (setAll r f v) g = hasField r g := by
  induction r with
  | nil => rfl
  | cons p rest ih =>
    cases p with
    | mk k w =>
      by_cases hk : k = f <;> simp [setAll, hasField, hk, ih]

theorem getField_setAll_self (r : Record) (f : String) (v : Value)
    (h : hasField r f = true) : getField (setAll r f v) f = v := by
  induction r with
  | nil => cases h
  | cons p rest ih =>
    cases p with
    | mk k w =>
      by_cases hk : k = f
      · simp [setAll, getField, hk]
      · simp only [hasField, decide_eq_true_eq, hk, false_or,
          Bool.false_or] at h
        simp [setAll, getField, hk, ih h]

theorem getField_setAll_ne (r : Record) (f : String) (v : Value)
    (g : String) (hg : g ≠ f) :
    getField (setAll r f v) g = getField r g := by
  induction r with
  | nil => rfl
  | cons p rest ih =>
    cases p with
    | mk k w =>
      by_cases hkg : k = g
      · have hkf : ¬k = f := fun hf => hg (hkg.symm.trans hf)
        simp only [setAll, getField, hkg, if_pos rfl, if_neg hg]
        simp
      · simp [setAll, getField, hkg, ih]

theorem hasField_append (r r2 : Record) (g : String) :
    hasField (r ++ r2) g = (hasField r g || hasField r2 g) := by
  induction r with
  | nil => simp [hasField]
  | cons p rest ih =>
    cases p with
    | mk k v => simp [hasField, ih, Bool.or_assoc]

theorem getField_of_not_hasField (r : Record) (g : String)
    (h : hasField r g = false) : getField r g = Value.undef := by
  induction r with
  | nil => rfl
  | cons p rest ih =>
    cases p with
    | mk k v =>
      simp only [hasField, Bool.or_eq_false_iff, decide_eq_false_iff_not]
        at h
      simp [getField, h.1, ih h.2]

theorem getField_setField_self (r : Record) (f : String) (v : Value) :
    getField (setField r f v) f = v := by
  unfold setField
  cases h : hasField r f
  · simp [getField_append, h, getField]
  · simp [getField_setAll_self r f v h]

theorem getField_setField_ne (r : Record) (f : String) (v : Value)
    (g : String) (hg : g ≠ f) :
    getField (setField r f v) g = getField r g := by
  unfold setField
  cases h : hasField r f
  · simp only [Bool.false_eq_true, if_false, getField_append]
    cases h2 : hasField r g
    · simp only [Bool.false_eq_true, if_false]
      rw [getField_of_not_hasField r g h2]
      simp only [getField]
      rw [if_neg (fun h => hg h.symm)]
    · simp
  · simp [getField_setAll_ne r f v g hg]

theorem hasField_setField (r : Record) (f : String) (v : Value)
    (g : String) :
    hasField (setField r f v) g = (hasField r g || decide (g = f)) := by
  unfold setField
  cases h : hasField r f
  · simp only [Bool.false_eq_true, if_false, hasField_append]
    simp [hasField, eq_comm]
  · rw [if_pos rfl, hasField_setAll]
    by_cases hg : g = f
    · subst hg
      simp [h]
    · simp [hg]

theorem project_foldl_get (entry : Record) (proj : List String)
    (acc : Record) (f : String) :
    getField
        (proj.foldl
          (fun newEntry field =>
            setField newEntry field (getField entry field)) acc)
        f
      = (if f ∈ proj then getField entry f else getField acc f) := by
  induction proj generalizing acc with
  | nil => simp
  | cons g rest ih =>
    simp only [List.foldl_cons]
    rw [ih]
    by_cases hfr : f ∈ rest
    · simp [hfr, List.mem_cons]
    · by_cases hfg : f = g
      · subst hfg
        simp [hfr, getField_setField_self]
      · simp [hfr, hfg, getField_setField_ne acc g (getField entry g) f hfg]

theorem project_foldl_has (entry : Record) (proj : List String)
    (acc : Record) (f : String) :
    hasField
        (proj.foldl
          (fun newEntry field =>
            setField newEntry field (getField entry field)) acc)
        f
      = (hasField acc f || decide (f ∈ proj)) := by
  induction proj generalizing acc with
  | nil => simp
  | cons g rest ih =>
    simp only [List.foldl_cons]
    rw [ih, hasField_setField]
    simp [List.mem_cons, Bool.or_assoc]

/-- C8: `project` builds a record whose own fields are exactly the
projected field names, each carrying the source record's value for it
(reading an absent source field propagates `undefined`); no other field
appears, and in particular projecting `name` alone out of a two-field
record yields exactly the one-field record. -/
theorem project_fields_exact (entry : Record) (proj : List String)
    (f : String) :
    hasField (project entry proj) f = decide (f ∈ proj)
    ∧ getField (project entry proj) f
        = (if f ∈ proj then getField entry f else Value.undef)
    ∧ project [("name", Value.str "Ann"), ("age", Value.num 30)] ["name"]
        = [("name", Value.str "Ann")] := by
  refine ⟨?_, ?_, by decide⟩
  · unfold project
    rw [project_foldl_has]
    simp [hasField]
  · unfold project
    rw [project_foldl_get]
    simp [getField]

/-! ### Claim C3 -/

theorem decodeRows_skip (parse : String → Option Record) (line : String)
    (hline : startsE line = false) (pre post : List String) :
    decodeRows parse (pre ++ line :: post) = decodeRows parse (pre ++ post) := by
  induction pre with
  | nil => simp [decodeRows, hline]
  | cons r rest ih =>
    cases hr : startsE r <;> simp [decodeRows, hr, ih]

theorem decodeRows_eq_mapM (parse : String → Option Record)
    (rows : List String) :
    decodeRows parse rows
      = (rows.filter startsE).mapM (fun r => parse (r.drop 1)) := by
  induction rows with
  | nil => rfl
  | cons row rest ih =>
    cases hr : startsE row
    · simp only [decodeRows, hr, Bool.false_eq_true, if_false,
        List.filter_cons, ih]
    · simp only [decodeRows, hr, if_true, List.filter_cons, ih]
      rw [List.mapM_cons]

theorem findRows_none_eq (fts : List String)
    (parse : String → Option Record) (rows : List String) (q : Filter) :
    findRows fts parse rows q none
      = (decodeRows parse rows).map
          (fun es => es.filter (evalFilter fts q)) := by
  cases h : decodeRows parse rows <;> simp [findRows, h]

/-- C3: a log row whose first character is not the existence marker
contributes no record (deleting it from anywhere in the row sequence
leaves the query result unchanged); the decoded sequence is exactly the
parses of the marker rows in physical order, and an unsorted query
result is a subsequence of it. -/
theorem find_visible_rows_only (fts : List String)
    (parse : String → Option Record) (q : Filter) :
    (∀ pre post line, startsE line = false →
      findRows fts parse (pre ++ line :: post) q none
        = findRows fts parse (pre ++ post) q none)
    ∧ (∀ rows, decodeRows parse rows
        = (rows.filter startsE).mapM (fun r => parse (r.drop 1)))
    ∧ (∀ rows rs, findRows fts parse rows q none = some rs →
        List.Sublist rs ((decodeRows parse rows).getD [])) := by
  refine ⟨?_, decodeRows_eq_mapM parse, ?_⟩
  · intro pre post line h
    rw [findRows_none_eq, findRows_none_eq, decodeRows_skip parse line h]
  · intro rows rs h
    rw [findRows_none_eq] at h
    cases hd : decodeRows parse rows with
    | none => rw [hd] at h; cases h
    | some es =>
      rw [hd] at h
      simp only [Option.map_some', Option.some.injEq] at h
      rw [← h]
      simp only [Option.getD_some]
      exact List.filter_sublist es

/-- Witness for C3 at a concrete log: a tombstone row is dropped, and
the result is a subsequence of the decoded visible rows. -/
theorem find_visible_rows_only_witness :
    findRows [] parse0 ["Xok", "Eok"] ⟨none, none, none, []⟩ none
      = findRows [] parse0 ["Eok"] ⟨none, none, none, []⟩ none := by
  exact (find_visible_rows_only [] parse0 ⟨none, none, none, []⟩).1
    [] ["Eok"] "Xok" (by decide)

/-! ### Claim C4 -/

theorem findRows_isSome (fts : List String)
    (parse : String → Option Record) (rows : List String) (q : Filter)
    (opts : Option FindOptions) :
    (findRows fts parse rows q opts).isSome
      = (decodeRows parse rows).isSome := by
  cases h : decodeRows parse rows with
  | none => cases opts <;> simp [findRows, h]
  | some es =>
    cases opts with
    | none => simp [findRows, h]
    | some o =>
      cases o with
      | mk s p => cases s <;> cases p <;> simp [findRows, h]

theorem isSome_bind_cons (o : Option (List Record)) (e : Record) :
    (o.bind fun es => some (e :: es)).isSome = o.isSome := by
  cases o <;> rfl

theorem decodeRows_isSome_iff (parse : String → Option Record)
    (rows : List String) :
    (decodeRows parse rows).isSome = true ↔
      ∀ row ∈ rows, startsE row = true →
        (parse (row.drop 1)).isSome = true := by
  induction rows with
  | nil => simp [decodeRows]
  | cons row rest ih =>
    cases hr : startsE row
    · simp [decodeRows, hr, ih]
    · cases hp : parse (row.drop 1) with
      | none =>
        rw [show decodeRows parse (row :: rest) = none from by
          simp [decodeRows, hr, hp]]
        simp only [Option.isSome_none, Bool.false_eq_true, false_iff]
        intro hall
        have hx := hall row (List.mem_cons_self row rest) hr
        rw [hp] at hx
        cases hx
      | some e =>
        rw [show decodeRows parse (row :: rest)
            = (decodeRows parse rest).bind fun es => some (e :: es) from by
          simp [decodeRows, hr, hp]]
        rw [isSome_bind_cons, ih]
        simp [List.mem_cons, hp]

/-- C4: `find` succeeds exactly when the remainder of every visible row
(first character the existence marker) parses; a single malformed
visible row fails the whole query, with no partial result. -/
theorem find_decode_all_or_nothing (fts : List String)
    (parse : String → Option Record) (rows : List String) (q : Filter)
    (opts : Option FindOptions) :
    (findRows fts parse rows q opts).isSome = true ↔
      ∀ row ∈ rows, startsE row = true →
        (parse (row.drop 1)).isSome = true := by
  rw [findRows_isSome]
  exact decodeRows_isSome_iff parse rows

/-- Witness for C4: a well-formed log succeeds; adding one visible row
with a malformed payload makes the whole query fail. -/
theorem find_decode_all_or_nothing_witness :
    (findRows [] parse0 ["Eok"] ⟨none, none, none, []⟩ none).isSome = true
    ∧ (findRows [] parse0 ["Ebad", "Eok"] ⟨none, none, none, []⟩
        none).isSome = false := by
  refine ⟨(find_decode_all_or_nothing [] parse0 ["Eok"]
    ⟨none, none, none, []⟩ none).mpr (by decide), ?_⟩
  cases h : (findRows [] parse0 ["Ebad", "Eok"] ⟨none, none, none, []⟩
      none).isSome
  · rfl
  · exact absurd ((find_decode_all_or_nothing [] parse0 ["Ebad", "Eok"]
      ⟨none, none, none, []⟩ none).mp h "Ebad" (by decide) (by decide))
      (by decide)

end DB
